import Mathlib

/-!
# Signed-URL upload / download round trip (`main.go`)

A shallow embedding of `main.go`.  The program is sequential glue over the
operating system, `net/http`, `encoding/json` and the cloud storage SDK, so
every call that leaves the program is answered by a field of `World`, and
every function of the source becomes a function of the world that returns
its Go results together with the list of environment calls it made, in
order (`Event`).

Conventions
* `int64` values are integers; the one place where the source multiplies two
  of them (`time.Duration(expirationSec) * time.Second`) wraps through
  `wrapInt64`.
* A Go `error` result is an `Option Error`, `none` standing for `nil`.
* `defer f()` is rendered by appending the call to the trace of every return
  path that follows the `defer` statement, last deferred first.
* `log.Fatal` prints and calls `os.Exit(1)`; `os.Exit` terminates the process
  at once and deferred calls are not run.
* `client.Do` of the zero `http.Client` is the redirect loop of `net/http`
  over single round trips, each of which is one `httpDo` event.
-/

namespace SignedURL

/-! ## Data model -/

abbrev Byte := UInt8

/-- Go `error` values the program can hold: those handed back by the
environment, and the ones the program itself builds. -/
inductive Error where
  /-- an error value returned by a call into `os`, `net/http` or `storage` -/
  | env (msg : String)
  /-- `fmt.Errorf("upload failed with status code %d", resp.StatusCode)` -/
  | uploadStatus (code : Int)
  /-- `fmt.Errorf("downloaded file size does not match original file size")` -/
  | sizeMismatch
  /-- `*json.SyntaxError`: the bytes are not a JSON text -/
  | jsonMalformed (msg : String)
  /-- `*json.UnmarshalTypeError`: JSON `value` cannot be stored in `field` -/
  | unmarshalType (value : String) (field : String)
  deriving DecidableEq, Repr

/-- The struct `Credentials` (lines 27-31). -/
structure Credentials where
  PrivateKey : String
  ClientEmail : String
  ProjectID : String
  deriving DecidableEq, Repr

/-- A file opened for reading: the bytes it delivers and the error, if any,
that ends the stream instead of `io.EOF`. -/
structure File where
  data : List Byte
  readErr : Option Error
  deriving DecidableEq, Repr

/-- A file opened for writing by `os.Create`: `fault = some (k, e)` makes the
write that would put byte `k + 1` on disk fail with `e`. -/
structure Sink where
  fault : Option (Nat × Error)
  deriving DecidableEq, Repr

/-- An HTTP response body: the bytes received and the error, if any, that
ends the stream instead of `io.EOF`. -/
structure Body where
  data : List Byte
  err : Option Error
  deriving DecidableEq, Repr

/-- The fields of `http.Response` the program reads. -/
structure Response where
  StatusCode : Int
  ContentLength : Int
  Body : Body
  deriving DecidableEq, Repr

/-- The fields of `http.Request` that matter here; `Body = none` is a request
without a body. -/
structure Request where
  Method : String
  URL : String
  Body : Option File
  deriving DecidableEq, Repr

/-- The answer to one request put on the wire: the response and the value of
its `Location` header, `""` when it has none. -/
structure Hop where
  resp : Response
  Location : String
  deriving DecidableEq, Repr

/-- The fields of `storage.SignedURLOptions` the program sets; a field the
source leaves out holds its zero value (`""` for `GoogleAccessID`).
`Expires` is an instant in nanoseconds. -/
structure SignedURLOptions where
  GoogleAccessID : String
  Method : String
  Expires : Int
  deriving DecidableEq, Repr

/-- A parsed JSON text.  Object members are kept in document order, with
duplicates, as `encoding/json` meets them. -/
inductive JSON where
  | null
  | bool (b : Bool)
  | number (lit : String)
  | str (s : String)
  | array (items : List JSON)
  | object (members : List (String × JSON))

/-- One call into the environment, with `ok = true` when the call returned
without an error.  `httpDo` stands for one request that `client.Do` puts on
the wire, so a `client.Do` that follows redirects leaves several; `httpGet`
stands for one call of `http.Get`. -/
inductive Event where
  | osOpen (path : String) (ok : Bool)
  | readAll (path : String) (ok : Bool)
  | fileClose (path : String)
  | osCreate (path : String) (ok : Bool)
  | write (path : String) (data : List Byte)
  | newClient (credentialsFile : String) (ok : Bool)
  | clientClose
  | signedURL (bucket object : String) (opts : SignedURLOptions) (ok : Bool)
  | httpDo (method url : String) (ok : Bool)
  | httpGet (url : String) (ok : Bool)
  | bodyClose
  | println (msg : String)
  | logFatal (err : Error)
  deriving DecidableEq, Repr

/-- Everything outside the program.  Each field answers one kind of call. -/
structure World where
  /-- `os.Open(path)` -/
  osOpen : String → Except Error File
  /-- the syntax analysis of `json.Unmarshal`: the JSON value the bytes
  spell, or the syntax error -/
  jsonParse : List Byte → Except Error JSON
  /-- `storage.NewClient(ctx, option.WithCredentialsFile(path))` -/
  newClient : String → Option Error
  /-- how `fmt.Println` renders the client pointer -/
  clientText : String
  /-- `uuid.New().String()`, taken to return -/
  uuidNew : String
  /-- `time.Now()` inside `generateUploadURL`, nanoseconds -/
  nowUpload : Int
  /-- `time.Now()` inside `generateDownloadURL`, nanoseconds -/
  nowDownload : Int
  /-- `client.Bucket(bucket).SignedURL(object, opts)` -/
  signedURL : String → String → SignedURLOptions → Except Error String
  /-- the error of `http.NewRequest(method, url, body)` -/
  newRequest : String → String → Option Error
  /-- one round trip of the HTTP transport: the request goes out and the
  server's answer, or a transport error, comes back -/
  send : Request → Except Error Hop
  /-- `req.URL.Parse(loc)`: the URL a `Location` header names, seen from the
  URL of the request it answers -/
  resolve : String → String → Except Error String
  /-- `http.Get(url)` -/
  httpGet : String → Except Error Response
  /-- `os.Create(path)` -/
  osCreate : String → Except Error Sink

/-- Go results of a call: the value, the `error`, and the environment calls
made on the way. -/
structure Ret (α : Type) where
  val : α
  err : Option Error
  trace : List Event

/-! ## Constants (lines 19-25) -/

def expirationSec : Int := 3600000
def bucketName : String := "smmf-stag-cloud-storage-01"
def credentialPath : String :=
  "/Users/jeremykane/GolandProjects/Test/smmf-20230605-02-7609f3e8659b.json"
def uploadFilePath : String := "/Users/jeremykane/GolandProjects/Test/upload.jpeg"
def downloadFilePath : String := "/Users/jeremykane/GolandProjects/Test/download.jpeg"

/-! ## `encoding/json` into `Credentials` -/

/-- Case folding of one rune as `encoding/json` compares member names with
field names: besides the ASCII letters, the Kelvin sign folds with `k` and
the long s with `s`. -/
def foldRune (c : Char) : Char :=
  if 97 ≤ c.toNat ∧ c.toNat ≤ 122 then Char.ofNat (c.toNat - 32)
  else if c.toNat = 0x212A then Char.ofNat 75
  else if c.toNat = 0x017F then Char.ofNat 83
  else c

def foldName (s : String) : String := String.mk (s.data.map foldRune)

/-- The three fields of `Credentials`, in declaration order. -/
inductive Field where
  | PrivateKey
  | ClientEmail
  | ProjectID
  deriving DecidableEq, Repr

/-- The name given by the struct tag `json:"..."`. -/
def Field.tag : Field → String
  | .PrivateKey => "private_key"
  | .ClientEmail => "client_email"
  | .ProjectID => "project_id"

def Field.all : List Field := [.PrivateKey, .ClientEmail, .ProjectID]

/-- The field a member name selects: the one whose tag is the name, else the
first whose tag equals it under case folding, else none (the member is
skipped). -/
def findField (key : String) : Option Field :=
  match Field.all.find? (fun f => f.tag == key) with
  | some f => some f
  | none => Field.all.find? (fun f => foldName f.tag == foldName key)

def Credentials.get (c : Credentials) : Field → String
  | .PrivateKey => c.PrivateKey
  | .ClientEmail => c.ClientEmail
  | .ProjectID => c.ProjectID

def Credentials.set (c : Credentials) (f : Field) (s : String) : Credentials :=
  match f with
  | .PrivateKey => { c with PrivateKey := s }
  | .ClientEmail => { c with ClientEmail := s }
  | .ProjectID => { c with ProjectID := s }

/-- Storing a JSON value in a Go `string` field: a string is stored, `null`
leaves the field as it is, anything else is an `UnmarshalTypeError`. -/
def storeString (c : Credentials) (f : Field) : JSON → Credentials × Option Error
  | .str s => (c.set f s, none)
  | .null => (c, none)
  | .bool _ => (c, some (.unmarshalType "bool" f.tag))
  | .number _ => (c, some (.unmarshalType "number" f.tag))
  | .array _ => (c, some (.unmarshalType "array" f.tag))
  | .object _ => (c, some (.unmarshalType "object" f.tag))

/-- The decoder keeps the first error it meets and goes on. -/
def saveError (saved new : Option Error) : Option Error :=
  match saved with
  | some e => some e
  | none => new

/-- Decoding the members of an object into the struct, in document order. -/
def decodeMembers : List (String × JSON) → Credentials × Option Error → Credentials × Option Error
  | [], st => st
  | (key, v) :: rest, (c, saved) =>
    match findField key with
    | none => decodeMembers rest (c, saved)
    | some f =>
      let r := storeString c f v
      decodeMembers rest (r.1, saveError saved r.2)

/-- Decoding a JSON value into a `Credentials` struct. -/
def decodeValue (c : Credentials) : JSON → Credentials × Option Error
  | .object members => decodeMembers members (c, none)
  | .null => (c, none)
  | .bool _ => (c, some (.unmarshalType "bool" "Credentials"))
  | .number _ => (c, some (.unmarshalType "number" "Credentials"))
  | .str _ => (c, some (.unmarshalType "string" "Credentials"))
  | .array _ => (c, some (.unmarshalType "array" "Credentials"))

/-- `json.Unmarshal(contents, &credentials)`: the syntax check runs over the
whole input before anything is stored. -/
def jsonUnmarshal (w : World) (contents : List Byte) (c : Credentials) :
    Credentials × Option Error :=
  match w.jsonParse contents with
  | .error e => (c, some e)
  | .ok v => decodeValue c v

/-! ## The functions of `main.go` -/

/-- The zero value `Credentials{}`. -/
def Credentials.zero : Credentials := ⟨"", "", ""⟩

/-- `readCredentials` (lines 87-106). -/
def readCredentials (w : World) (credentialsPath : String) : Ret Credentials :=
  match w.osOpen credentialsPath with
  | .error err => ⟨Credentials.zero, some err, [.osOpen credentialsPath false]⟩
  | .ok file =>
    match file.readErr with
    | some err =>
      ⟨Credentials.zero, some err,
        [.osOpen credentialsPath true, .readAll credentialsPath false,
         .fileClose credentialsPath]⟩
    | none =>
      let r := jsonUnmarshal w file.data Credentials.zero
      match r.2 with
      | some err =>
        ⟨Credentials.zero, some err,
          [.osOpen credentialsPath true, .readAll credentialsPath true,
           .fileClose credentialsPath]⟩
      | none =>
        ⟨r.1, none,
          [.osOpen credentialsPath true, .readAll credentialsPath true,
           .fileClose credentialsPath]⟩

/-- Two's-complement wrap of an integer into `int64`. -/
def wrapInt64 (x : Int) : Int := (x + 2 ^ 63) % 2 ^ 64 - 2 ^ 63

/-- `time.Second`, in nanoseconds. -/
def timeSecond : Int := 1000000000

/-- `time.Duration(expirationSec) * time.Second`: an `int64` product. -/
def expiresDuration (expirationSec : Int) : Int := wrapInt64 (expirationSec * timeSecond)

/-- `t.Add(d)` on instants counted in nanoseconds.  Instants are unbounded
integers: the range of `time.Time` is wider than any clock reading moved by
an `int64` count of nanoseconds. -/
def timeAdd (t d : Int) : Int := t + d

/-- `generateUploadURL` (lines 109-125); `now` is what `time.Now()` returns. -/
def generateUploadURL (w : World) (now : Int) (bucketName objectName : String)
    (expirationSec : Int) (googleAccessID : String) : Ret String :=
  let expires := expiresDuration expirationSec
  let opts : SignedURLOptions :=
    { GoogleAccessID := googleAccessID, Method := "PUT", Expires := timeAdd now expires }
  match w.signedURL bucketName objectName opts with
  | .error err => ⟨"", some err, [.signedURL bucketName objectName opts false]⟩
  | .ok uploadURL => ⟨uploadURL, none, [.signedURL bucketName objectName opts true]⟩

/-- The method `net/http` gives the next request when the last one, sent
with `reqMethod`, was answered by `status` (`redirectBehavior`), or `none`
when the answer is not followed.  301, 302 and 303 are followed, by a `GET`
unless the method was `GET` or `HEAD`.  307 and 308 would send the body
again; the first request's body is an `*os.File`, for which
`http.NewRequest` sets neither `ContentLength` nor `GetBody`, so they are
handed back like any other status. -/
def redirectMethod (reqMethod : String) (status : Int) : Option String :=
  if status = 301 ∨ status = 302 ∨ status = 303 then
    if reqMethod ≠ "GET" ∧ reqMethod ≠ "HEAD" then some "GET" else some reqMethod
  else none

/-- The loop of `(*http.Client).do` from the sending of `req`, when `left`
more requests may follow it.  An answer that is not followed, or has no
`Location`, is returned; otherwise the location is resolved, the default
`CheckRedirect` refuses an eleventh request, and the next request goes
out without a body. -/
def clientSend (w : World) : Nat → Request → Except Error Response × List Event
  | left, req =>
    match w.send req with
    | .error err => (.error err, [.httpDo req.Method req.URL false])
    | .ok hop =>
      match redirectMethod req.Method hop.resp.StatusCode with
      | none => (.ok hop.resp, [.httpDo req.Method req.URL true])
      | some method =>
        if hop.Location = "" then (.ok hop.resp, [.httpDo req.Method req.URL true])
        else
          match w.resolve req.URL hop.Location with
          | .error err => (.error err, [.httpDo req.Method req.URL true])
          | .ok u =>
            match left with
            | 0 => (.error (.env "stopped after 10 redirects"),
                [.httpDo req.Method req.URL true])
            | left + 1 =>
              let r := clientSend w left ⟨method, u, none⟩
              (r.1, .httpDo req.Method req.URL true :: r.2)

/-- `(&http.Client{}).Do(req)`: the zero client has the default redirect
policy, at most ten requests in all. -/
def clientDo (w : World) (req : Request) : Except Error Response × List Event :=
  clientSend w 9 req

/-- `uploadDocument` (lines 128-152). -/
def uploadDocument (w : World) (uploadURL filePath : String) : Ret Unit :=
  match w.osOpen filePath with
  | .error err => ⟨(), some err, [.osOpen filePath false]⟩
  | .ok file =>
    match w.newRequest "PUT" uploadURL with
    | some err => ⟨(), some err, [.osOpen filePath true, .fileClose filePath]⟩
    | none =>
      let d := clientDo w ⟨"PUT", uploadURL, some file⟩
      match d.1 with
      | .error err =>
        ⟨(), some err, .osOpen filePath true :: (d.2 ++ [.fileClose filePath])⟩
      | .ok resp =>
        if resp.StatusCode ≠ 200 then
          ⟨(), some (.uploadStatus resp.StatusCode),
            .osOpen filePath true :: (d.2 ++ [.bodyClose, .fileClose filePath])⟩
        else
          ⟨(), none, .osOpen filePath true :: (d.2 ++ [.bodyClose, .fileClose filePath])⟩

/-- `generateDownloadURL` (lines 155-170); `now` is what `time.Now()` returns. -/
def generateDownloadURL (w : World) (now : Int) (bucketName objectName : String)
    (expirationSec : Int) : Ret String :=
  let expires := expiresDuration expirationSec
  let opts : SignedURLOptions :=
    { GoogleAccessID := "", Method := "GET", Expires := timeAdd now expires }
  match w.signedURL bucketName objectName opts with
  | .error err => ⟨"", some err, [.signedURL bucketName objectName opts false]⟩
  | .ok downloadURL => ⟨downloadURL, none, [.signedURL bucketName objectName opts true]⟩

/-- What `io.Copy(file, resp.Body)` leaves behind: the bytes put on disk, the
count it returns and its error. -/
structure Copied where
  written : List Byte
  n : Int
  err : Option Error
  deriving DecidableEq, Repr

/-- `io.Copy(dst, src)`: bytes go to `dst` as they arrive until the source
ends (`io.EOF` is not an error), a read fails, or a write fails. -/
def ioCopy (dst : Sink) (src : Body) : Copied :=
  match dst.fault with
  | none => ⟨src.data, src.data.length, src.err⟩
  | some (k, e) =>
    if k < src.data.length then ⟨src.data.take k, k, some e⟩
    else ⟨src.data, src.data.length, src.err⟩

/-- `downloadDocument` (lines 173-196). -/
def downloadDocument (w : World) (downloadURL filePath : String) : Ret Unit :=
  match w.httpGet downloadURL with
  | .error err => ⟨(), some err, [.httpGet downloadURL false]⟩
  | .ok resp =>
    match w.osCreate filePath with
    | .error err =>
      ⟨(), some err, [.httpGet downloadURL true, .osCreate filePath false, .bodyClose]⟩
    | .ok file =>
      let c := ioCopy file resp.Body
      let trace : List Event :=
        [.httpGet downloadURL true, .osCreate filePath true, .write filePath c.written,
         .fileClose filePath, .bodyClose]
      match c.err with
      | some err => ⟨(), some err, trace⟩
      | none =>
        if c.n ≠ resp.ContentLength then ⟨(), some .sizeMismatch, trace⟩
        else ⟨(), none, trace⟩

/-- How a run of the process ends: its exit status and every environment
call it made. -/
structure Run where
  exitCode : Nat
  trace : List Event
  deriving DecidableEq, Repr

/-- `log.Fatal(err)` after the calls in `done`: the error is printed and the
process exits with status 1; deferred calls are not run. -/
def logFatal (done : List Event) (err : Error) : Run :=
  ⟨1, done ++ [.logFatal err]⟩

/-- `main` (lines 33-84). -/
def main (w : World) : Run :=
  let r1 := readCredentials w credentialPath
  match r1.err with
  | some err => logFatal r1.trace err
  | none =>
    let creds := r1.val
    let t1 := r1.trace ++ [.println "Read Creds Complete."]
    match w.newClient credentialPath with
    | some err => logFatal (t1 ++ [.newClient credentialPath false]) err
    | none =>
      let t2 := t1 ++ [.newClient credentialPath true,
        .println ("Create storage client: " ++ w.clientText)]
      let googleAccessID := creds.ClientEmail
      let uuid := w.uuidNew
      let objectName := uuid ++ ".jpeg"
      let r3 := generateUploadURL w w.nowUpload bucketName objectName expirationSec
        googleAccessID
      match r3.err with
      | some err => logFatal (t2 ++ r3.trace) err
      | none =>
        let uploadURL := r3.val
        let t3 := t2 ++ r3.trace ++ [.println ("Upload URL: " ++ uploadURL)]
        let r4 := uploadDocument w uploadURL uploadFilePath
        match r4.err with
        | some err => logFatal (t3 ++ r4.trace) err
        | none =>
          let t4 := t3 ++ r4.trace ++
            [.println ("Document uploaded successfully! " ++ objectName)]
          let r5 := generateDownloadURL w w.nowDownload bucketName objectName expirationSec
          match r5.err with
          | some err => logFatal (t4 ++ r5.trace) err
          | none =>
            let downloadURL := r5.val
            let t5 := t4 ++ r5.trace ++ [.println ("Download URL: " ++ downloadURL)]
            let r6 := downloadDocument w downloadURL downloadFilePath
            match r6.err with
            | some err => logFatal (t5 ++ r6.trace) err
            | none =>
              ⟨0, t5 ++ r6.trace ++
                [.println ("Document downloaded successfully! " ++ objectName),
                 .clientClose]⟩

/-! ## Reading traces -/

/-- The content of the file at `path` after the calls of a trace: a
successful `os.Create` leaves it empty, a write appends. `none` when the
trace never created it. -/
def fileContent (path : String) : List Event → Option (List Byte) → Option (List Byte)
  | [], cur => cur
  | .osCreate p true :: rest, cur =>
    if p = path then fileContent path rest (some []) else fileContent path rest cur
  | .write p data :: rest, cur =>
    if p = path then fileContent path rest (cur.map (· ++ data))
    else fileContent path rest cur
  | _ :: rest, cur => fileContent path rest cur

/-- One request put on the wire by `client.Do`. -/
def Event.isHttpDo : Event → Bool
  | .httpDo _ _ _ => true
  | _ => false

/-- A call of `http.Get`. -/
def Event.isHttpGet : Event → Bool
  | .httpGet _ _ => true
  | _ => false

/-- A call of `storage.NewClient`. -/
def Event.isNewClient : Event → Bool
  | .newClient _ _ => true
  | _ => false

/-- A call of `SignedURL` on a bucket handle. -/
def Event.isSignedURL : Event → Bool
  | .signedURL _ _ _ _ => true
  | _ => false

/-- The expiry instants handed to the signer by the calls of a trace. -/
def signedExpiries : List Event → List Int
  | [] => []
  | .signedURL _ _ opts _ :: rest => opts.Expires :: signedExpiries rest
  | _ :: rest => signedExpiries rest

/-- Whether an `Except` result carries no error. -/
def succeeded {α : Type} : Except Error α → Bool
  | .ok _ => true
  | .error _ => false

/-! ## The stages of `main` -/

/-- The six stages of `main`, in source order. -/
inductive Stage where
  | readCredentials
  | createClient
  | generateUploadURL
  | upload
  | generateDownloadURL
  | download
  deriving DecidableEq, Repr

def Stage.order : List Stage :=
  [.readCredentials, .createClient, .generateUploadURL, .upload, .generateDownloadURL,
   .download]

/-- Position of a stage in `Stage.order`. -/
def Stage.index : Stage → Nat
  | .readCredentials => 0
  | .createClient => 1
  | .generateUploadURL => 2
  | .upload => 3
  | .generateDownloadURL => 4
  | .download => 5

/-- The stage an environment call begins, if it is the first call of one:
opening the credential file, creating the client, signing for `PUT`, opening
the file to upload, signing for `GET`, the download's `http.Get`. -/
def Event.begins : Event → Option Stage
  | .osOpen p _ =>
    if p = credentialPath then some .readCredentials
    else if p = uploadFilePath then some .upload
    else none
  | .newClient _ _ => some .createClient
  | .signedURL _ _ opts _ =>
    if opts.Method = "PUT" then some .generateUploadURL
    else if opts.Method = "GET" then some .generateDownloadURL
    else none
  | .httpGet _ _ => some .download
  | _ => none

/-- The stages a trace went into, in the order it went into them. -/
def stagesRun (t : List Event) : List Stage := t.filterMap Event.begins

/-- The call `main` makes for stage 1. -/
def callReadCredentials (w : World) : Ret Credentials := readCredentials w credentialPath

/-- The call `main` makes for stage 3, given what stage 1 returned. -/
def callGenerateUploadURL (w : World) : Ret String :=
  generateUploadURL w w.nowUpload bucketName (w.uuidNew ++ ".jpeg") expirationSec
    (callReadCredentials w).val.ClientEmail

/-- The call `main` makes for stage 4, given what stage 3 returned. -/
def callUploadDocument (w : World) : Ret Unit :=
  uploadDocument w (callGenerateUploadURL w).val uploadFilePath

/-- The call `main` makes for stage 5. -/
def callGenerateDownloadURL (w : World) : Ret String :=
  generateDownloadURL w w.nowDownload bucketName (w.uuidNew ++ ".jpeg") expirationSec

/-- The call `main` makes for stage 6, given what stage 5 returned. -/
def callDownloadDocument (w : World) : Ret Unit :=
  downloadDocument w (callGenerateDownloadURL w).val downloadFilePath

/-- The error a stage returns when `main` reaches it. -/
def stageError (w : World) : Stage → Option Error
  | .readCredentials => (callReadCredentials w).err
  | .createClient => w.newClient credentialPath
  | .generateUploadURL => (callGenerateUploadURL w).err
  | .upload => (callUploadDocument w).err
  | .generateDownloadURL => (callGenerateDownloadURL w).err
  | .download => (callDownloadDocument w).err

/-! ## Sample worlds -/

/-- A world in which every call succeeds: files are empty, the credential
document is `null`, every URL signs to `"u"`, every request is answered by
`200` with an empty body of declared length `0` and no `Location`, and a
location resolves to itself. -/
def World.calm : World where
  osOpen := fun _ => .ok ⟨[], none⟩
  jsonParse := fun _ => .ok .null
  newClient := fun _ => none
  clientText := "&{}"
  uuidNew := "0"
  nowUpload := 0
  nowDownload := 0
  signedURL := fun _ _ _ => .ok "u"
  newRequest := fun _ _ => none
  send := fun _ => .ok ⟨⟨200, 0, ⟨[], none⟩⟩, ""⟩
  resolve := fun _ loc => .ok loc
  httpGet := fun _ => .ok ⟨200, 0, ⟨[], none⟩⟩
  osCreate := fun _ => .ok ⟨none⟩

/-- The calm world, except that every `http.Get` is answered by `resp`. -/
def World.answering (resp : Response) : World :=
  { World.calm with httpGet := fun _ => .ok resp }

/-- The calm world, except that every request sent by `client.Do` is
answered by status `s`, without a `Location`. -/
def World.putStatus (s : Int) : World :=
  { World.calm with send := fun _ => .ok ⟨⟨s, 0, ⟨[], none⟩⟩, ""⟩ }

/-- The calm world, except that a `PUT` is answered `302` with
`Location: v`, and any other request `200`. -/
def World.redirecting : World :=
  { World.calm with
    send := fun req =>
      if req.Method = "PUT" then .ok ⟨⟨302, 0, ⟨[], none⟩⟩, "v"⟩
      else .ok ⟨⟨200, 0, ⟨[], none⟩⟩, ""⟩ }

/-- The calm world, except that every request is answered `302` with
`Location: v`. -/
def World.looping : World :=
  { World.calm with send := fun _ => .ok ⟨⟨302, 0, ⟨[], none⟩⟩, "v"⟩ }

/-- The calm world, except that the signer refuses every request. -/
def World.signerDown : World :=
  { World.calm with signedURL := fun _ _ _ => .error (.env "signing failed") }

/-- The calm world, except that no file can be opened for reading. -/
def World.noFiles : World :=
  { World.calm with osOpen := fun _ => .error (.env "no such file or directory") }

/-- The calm world, except that the credential file spells the JSON value
`doc`. -/
def World.holding (doc : JSON) : World :=
  { World.calm with jsonParse := fun _ => .ok doc }

/-- A JSON value a Go `string` field takes without error: a string or
`null`. -/
def JSON.fitsString : JSON → Bool
  | .str _ => true
  | .null => true
  | _ => false

/-! ## The trace of a run, stage by stage -/

/-- The trace of `main` when stage 1 has succeeded. -/
def traceRead (w : World) : List Event :=
  (callReadCredentials w).trace ++ [.println "Read Creds Complete."]

/-- The trace of `main` when stages 1-2 have succeeded. -/
def traceClient (w : World) : List Event :=
  traceRead w ++
    [.newClient credentialPath true, .println ("Create storage client: " ++ w.clientText)]

/-- The trace of `main` when stages 1-3 have succeeded. -/
def traceUploadURL (w : World) : List Event :=
  traceClient w ++ (callGenerateUploadURL w).trace ++
    [.println ("Upload URL: " ++ (callGenerateUploadURL w).val)]

/-- The trace of `main` when stages 1-4 have succeeded. -/
def traceUpload (w : World) : List Event :=
  traceUploadURL w ++ (callUploadDocument w).trace ++
    [.println ("Document uploaded successfully! " ++ (w.uuidNew ++ ".jpeg"))]

/-- The trace of `main` when stages 1-5 have succeeded. -/
def traceDownloadURL (w : World) : List Event :=
  traceUpload w ++ (callGenerateDownloadURL w).trace ++
    [.println ("Download URL: " ++ (callGenerateDownloadURL w).val)]

/-- The trace of `main` when all six stages have succeeded and `main`
returns, which runs the deferred `client.Close()`. -/
def traceDownload (w : World) : List Event :=
  traceDownloadURL w ++ (callDownloadDocument w).trace ++
    [.println ("Document downloaded successfully! " ++ (w.uuidNew ++ ".jpeg")),
     .clientClose]

/-! ## Sample documents -/

/-- The members of
`{"type":"service_account","project_id":"p","private_key":"k","client_email":"e"}`. -/
def sampleMembers : List (String × JSON) :=
  [("type", .str "service_account"), ("project_id", .str "p"), ("private_key", .str "k"),
   ("client_email", .str "e")]

/-- The members of
`{"private_key":"k","client_email":"e","project_id":"p","PRIVATE_KEY":"x"}`. -/
def shadowedMembers : List (String × JSON) :=
  [("private_key", .str "k"), ("client_email", .str "e"), ("project_id", .str "p"),
   ("PRIVATE_KEY", .str "x")]

/-- The members of `{"private_key":7}`. -/
def numericKeyMembers : List (String × JSON) := [("private_key", .number "7")]

/-- The string a field holds once the members of an object were decoded
over a field holding `cur`: the value of the last member that selects the
field and holds a string, `cur` when there is none. -/
def lastString (f : Field) : List (String × JSON) → String → String
  | [], cur => cur
  | (key, .str s) :: rest, cur =>
    if findField key = some f then lastString f rest s else lastString f rest cur
  | _ :: rest, cur => lastString f rest cur

/-! ## Download -/

theorem ioCopy_ok (dst : Sink) (src : Body) (h : (ioCopy dst src).err = none) :
    (ioCopy dst src).written = src.data ∧ (ioCopy dst src).n = src.data.length := by
  unfold ioCopy at *
  rcases hf : dst.fault with _ | ⟨k, e⟩
  · simp
  · simp only [hf] at h ⊢
    by_cases hk : k < src.data.length
    · simp [hk] at h
    · simp [hk]

theorem ioCopy_n_nonneg (dst : Sink) (src : Body) : 0 ≤ (ioCopy dst src).n := by
  unfold ioCopy
  rcases dst.fault with _ | ⟨k, e⟩
  · simp
  · by_cases hk : k < src.data.length <;> simp [hk]

/-- C1: when the GET returns a response, the file is created and the copy
has written `n` bytes, `downloadDocument` returns an error whenever `n`
differs from the declared content length (so also when `n` is smaller), and
returns nil only when the two are equal; when the copy itself reported no
error, the error is the size mismatch and equal sizes give nil. -/
theorem downloadDocument_length_check (w : World) (downloadURL filePath : String)
    (resp : Response) (file : Sink) (n : Int)
    (hget : w.httpGet downloadURL = .ok resp)
    (hcreate : w.osCreate filePath = .ok file)
    (hn : (ioCopy file resp.Body).n = n) :
    (n ≠ resp.ContentLength → (downloadDocument w downloadURL filePath).err ≠ none) ∧
    (n < resp.ContentLength → (downloadDocument w downloadURL filePath).err ≠ none) ∧
    ((downloadDocument w downloadURL filePath).err = none → n = resp.ContentLength) ∧
    ((ioCopy file resp.Body).err = none →
      (n ≠ resp.ContentLength →
        (downloadDocument w downloadURL filePath).err = some .sizeMismatch) ∧
      (n = resp.ContentLength → (downloadDocument w downloadURL filePath).err = none)) := by
  have key : (downloadDocument w downloadURL filePath).err =
      match (ioCopy file resp.Body).err with
      | some e => some e
      | none => if n ≠ resp.ContentLength then some .sizeMismatch else none := by
    simp only [downloadDocument, hget, hcreate, hn]
    split
    · rfl
    · split <;> rfl
  rw [key]
  rcases (ioCopy file resp.Body).err with _ | e
  · refine ⟨?_, ?_, ?_, ?_⟩
    · intro h; simp [h]
    · intro h; simp [ne_of_lt h]
    · intro h; by_contra hne; simp [hne] at h
    · intro _; exact ⟨fun h => by simp [h], fun h => by simp [h]⟩
  · refine ⟨?_, ?_, ?_, ?_⟩
    · intro _; simp
    · intro _; simp
    · intro h; simp at h
    · intro h; simp at h

/-- A truncated response: two bytes arrive where three were declared. -/
theorem downloadDocument_length_check_witness :
    (downloadDocument (World.answering ⟨200, 3, ⟨[1, 2], none⟩⟩) "u" "f").err
      = some .sizeMismatch :=
  ((downloadDocument_length_check (World.answering ⟨200, 3, ⟨[1, 2], none⟩⟩) "u" "f"
    ⟨200, 3, ⟨[1, 2], none⟩⟩ ⟨none⟩ 2 rfl rfl rfl).2.2.2 rfl).1 (by decide)

/-- C9: the status code plays no part in a download.  Whatever the status
`s`, when the body has as many bytes as the declared content length, the
file is created and the copy succeeds, `downloadDocument` returns nil and the
destination file holds the body. -/
theorem downloadDocument_ignores_status (w : World) (downloadURL filePath : String)
    (s L : Int) (body : Body) (file : Sink)
    (hget : w.httpGet downloadURL = .ok ⟨s, L, body⟩)
    (hcreate : w.osCreate filePath = .ok file)
    (hlen : (body.data.length : Int) = L)
    (hcopy : (ioCopy file body).err = none) :
    (downloadDocument w downloadURL filePath).err = none ∧
    fileContent filePath (downloadDocument w downloadURL filePath).trace none
      = some body.data := by
  obtain ⟨hw, hn⟩ := ioCopy_ok file body hcopy
  constructor
  · simp only [downloadDocument, hget, hcreate, hcopy, hn, hlen]
    simp
  · simp only [downloadDocument, hget, hcreate, hcopy, hn, hlen, hw]
    simp [fileContent]

/-- A `404` whose four-byte body is saved as if it were the object. -/
theorem downloadDocument_ignores_status_witness :
    (downloadDocument (World.answering ⟨404, 4, ⟨[1, 2, 3, 4], none⟩⟩) "u" "f").err = none ∧
    fileContent "f"
      (downloadDocument (World.answering ⟨404, 4, ⟨[1, 2, 3, 4], none⟩⟩) "u" "f").trace none
      = some [1, 2, 3, 4] :=
  downloadDocument_ignores_status (World.answering ⟨404, 4, ⟨[1, 2, 3, 4], none⟩⟩) "u" "f"
    404 4 ⟨[1, 2, 3, 4], none⟩ ⟨none⟩ rfl rfl rfl rfl

/-- C10: a response whose content length is unknown (`-1`) makes
`downloadDocument` return an error whatever the body; when the file was
created and the whole body copied, the error is the size mismatch and the
file holds the whole body. -/
theorem downloadDocument_unknown_length (w : World) (downloadURL filePath : String)
    (resp : Response)
    (hget : w.httpGet downloadURL = .ok resp)
    (hlen : resp.ContentLength = -1) :
    (downloadDocument w downloadURL filePath).err ≠ none ∧
    ∀ file, w.osCreate filePath = .ok file → (ioCopy file resp.Body).err = none →
      (downloadDocument w downloadURL filePath).err = some .sizeMismatch ∧
      fileContent filePath (downloadDocument w downloadURL filePath).trace none
        = some resp.Body.data := by
  have hne : ∀ file, (ioCopy file resp.Body).n ≠ resp.ContentLength := by
    intro file h
    have := ioCopy_n_nonneg file resp.Body
    omega
  constructor
  · simp only [downloadDocument, hget]
    rcases hc : w.osCreate filePath with e | file
    · simp
    · rcases he : (ioCopy file resp.Body).err with _ | e
      · simp [he, hne file]
      · simp [he]
  · intro file hcreate hcopy
    obtain ⟨hw, -⟩ := ioCopy_ok file resp.Body hcopy
    simp only [downloadDocument, hget, hcreate, hcopy, hw]
    simp [hne file, fileContent]

/-- A chunked response delivered in full still fails. -/
theorem downloadDocument_unknown_length_witness :
    (downloadDocument (World.answering ⟨200, -1, ⟨[7, 7], none⟩⟩) "u" "f").err ≠ none :=
  (downloadDocument_unknown_length (World.answering ⟨200, -1, ⟨[7, 7], none⟩⟩) "u" "f"
    ⟨200, -1, ⟨[7, 7], none⟩⟩ rfl rfl).1

/-! ## Upload -/

theorem clientSend_trace_isHttpDo (w : World) (left : Nat) (req : Request) :
    ∀ ev ∈ (clientSend w left req).2, ev.isHttpDo = true := by
  induction left generalizing req with
  | zero =>
    unfold clientSend
    split
    · simp [Event.isHttpDo]
    · split
      · simp [Event.isHttpDo]
      · split
        · simp [Event.isHttpDo]
        · split <;> simp [Event.isHttpDo]
  | succ n ih =>
    unfold clientSend
    split
    · simp [Event.isHttpDo]
    · split
      · simp [Event.isHttpDo]
      · split
        · simp [Event.isHttpDo]
        · split
          · simp [Event.isHttpDo]
          · intro ev hev
            simp only [List.mem_cons] at hev
            rcases hev with rfl | hev
            · rfl
            · exact ih _ ev hev

theorem clientSend_length (w : World) (left : Nat) (req : Request) :
    1 ≤ (clientSend w left req).2.length ∧ (clientSend w left req).2.length ≤ left + 1 := by
  induction left generalizing req with
  | zero =>
    unfold clientSend
    split
    · simp
    · split
      · simp
      · split
        · simp
        · split <;> simp
  | succ n ih =>
    unfold clientSend
    split
    · simp
    · split
      · simp
      · split
        · simp
        · split
          · simp
          · rename_i method _ _ _ u _
            have := ih ⟨method, u, none⟩
            simp only [List.length_cons]
            omega

theorem clientSend_get (w : World) (left : Nat) (u : String) (body : Option File) :
    ∀ ev ∈ (clientSend w left ⟨"GET", u, body⟩).2, ∃ v ok, ev = .httpDo "GET" v ok := by
  induction left generalizing u body with
  | zero =>
    unfold clientSend
    split
    · simp
    · split
      · simp
      · split
        · simp
        · split <;> simp
  | succ n ih =>
    unfold clientSend
    split
    · simp
    · split
      · simp
      · rename_i hop _ method hm
        have hmeth : method = "GET" := by
          simp only [redirectMethod] at hm
          split at hm
          · simp at hm; exact hm.symm
          · simp at hm
        subst hmeth
        split
        · simp
        · split
          · simp
          · intro ev hev
            simp only [List.mem_cons] at hev
            rcases hev with rfl | hev
            · exact ⟨u, true, rfl⟩
            · exact ih _ _ ev hev

theorem clientSend_put (w : World) (left : Nat) (u : String) (body : Option File) :
    ∃ ok rest, (clientSend w left ⟨"PUT", u, body⟩).2 = .httpDo "PUT" u ok :: rest ∧
      ∀ ev ∈ rest, ∃ v ok', ev = .httpDo "GET" v ok' := by
  cases left with
  | zero =>
    unfold clientSend
    split
    · exact ⟨false, [], rfl, by simp⟩
    · split
      · exact ⟨true, [], rfl, by simp⟩
      · split
        · exact ⟨true, [], rfl, by simp⟩
        · split <;> exact ⟨true, [], rfl, by simp⟩
  | succ n =>
    unfold clientSend
    split
    · exact ⟨false, [], rfl, by simp⟩
    · split
      · exact ⟨true, [], rfl, by simp⟩
      · rename_i hop _ method hm
        have hmeth : method = "GET" := by
          simp only [redirectMethod] at hm
          split at hm
          · simp at hm; exact hm.symm
          · simp at hm
        subst hmeth
        split
        · exact ⟨true, [], rfl, by simp⟩
        · split
          · exact ⟨true, [], rfl, by simp⟩
          · exact ⟨true, _, rfl, clientSend_get w n _ none⟩

theorem clientSend_error (w : World) (left : Nat) (req : Request) (e : Error)
    (h : w.send req = .error e) :
    clientSend w left req = (.error e, [.httpDo req.Method req.URL false]) := by
  cases left <;> simp [clientSend, h]

theorem clientSend_final (w : World) (left : Nat) (req : Request) (hop : Hop)
    (h : w.send req = .ok hop)
    (hfinal : redirectMethod req.Method hop.resp.StatusCode = none ∨ hop.Location = "") :
    clientSend w left req = (.ok hop.resp, [.httpDo req.Method req.URL true]) := by
  rcases hm : redirectMethod req.Method hop.resp.StatusCode with _ | m
  · cases left <;> simp [clientSend, h, hm]
  · have hl : hop.Location = "" := by
      rcases hfinal with h' | h'
      · rw [hm] at h'; exact absurd h' (by simp)
      · exact h'
    cases left <;> simp [clientSend, h, hm, hl]

theorem uploadDocument_requests (w : World) (uploadURL filePath : String) (file : File)
    (hopen : w.osOpen filePath = .ok file)
    (hreq : w.newRequest "PUT" uploadURL = none) :
    (uploadDocument w uploadURL filePath).trace.filter Event.isHttpDo
      = (clientDo w ⟨"PUT", uploadURL, some file⟩).2 := by
  have hall := clientSend_trace_isHttpDo w 9 ⟨"PUT", uploadURL, some file⟩
  have hf : (clientDo w ⟨"PUT", uploadURL, some file⟩).2.filter Event.isHttpDo
      = (clientDo w ⟨"PUT", uploadURL, some file⟩).2 :=
    List.filter_eq_self.2 hall
  simp only [uploadDocument, hopen, hreq]
  split
  · simp [List.filter_cons, List.filter_append, Event.isHttpDo, hf]
  · split <;> simp [List.filter_cons, List.filter_append, Event.isHttpDo, hf]

/-- C2, as the code has it: when the file opens and the request is built,
`uploadDocument` calls `client.Do` once and the requests on the wire are
those of that one call.  It returns nil exactly when the response
`client.Do` hands back has status 200, the status error for any other such
status, and the error of `client.Do` as it is.  Between one and ten requests
are sent, the first the `PUT` to the upload URL and every later one a `GET`.
When the `PUT` fails in transport, or is answered by a status other than
301, 302 and 303, or without a `Location`, that is the outcome and exactly
one request was sent. -/
theorem uploadDocument_status (w : World) (uploadURL filePath : String) (file : File)
    (hopen : w.osOpen filePath = .ok file)
    (hreq : w.newRequest "PUT" uploadURL = none) :
    (∀ resp, (clientDo w ⟨"PUT", uploadURL, some file⟩).1 = .ok resp →
      ((uploadDocument w uploadURL filePath).err = none ↔ resp.StatusCode = 200) ∧
      (resp.StatusCode ≠ 200 →
        (uploadDocument w uploadURL filePath).err = some (.uploadStatus resp.StatusCode))) ∧
    (∀ e, (clientDo w ⟨"PUT", uploadURL, some file⟩).1 = .error e →
      (uploadDocument w uploadURL filePath).err = some e) ∧
    ((uploadDocument w uploadURL filePath).trace.filter Event.isHttpDo
      = (clientDo w ⟨"PUT", uploadURL, some file⟩).2) ∧
    (1 ≤ (uploadDocument w uploadURL filePath).trace.countP Event.isHttpDo ∧
      (uploadDocument w uploadURL filePath).trace.countP Event.isHttpDo ≤ 10) ∧
    (∃ ok rest,
      (uploadDocument w uploadURL filePath).trace.filter Event.isHttpDo
        = .httpDo "PUT" uploadURL ok :: rest ∧
      ∀ ev ∈ rest, ∃ v ok', ev = .httpDo "GET" v ok') ∧
    (∀ e, w.send ⟨"PUT", uploadURL, some file⟩ = .error e →
      (uploadDocument w uploadURL filePath).err = some e ∧
      (uploadDocument w uploadURL filePath).trace.countP Event.isHttpDo = 1) ∧
    (∀ hop, w.send ⟨"PUT", uploadURL, some file⟩ = .ok hop →
      (hop.resp.StatusCode ≠ 301 ∧ hop.resp.StatusCode ≠ 302 ∧ hop.resp.StatusCode ≠ 303) ∨
        hop.Location = "" →
      ((uploadDocument w uploadURL filePath).err = none ↔ hop.resp.StatusCode = 200) ∧
      (hop.resp.StatusCode ≠ 200 →
        (uploadDocument w uploadURL filePath).err
          = some (.uploadStatus hop.resp.StatusCode)) ∧
      (uploadDocument w uploadURL filePath).trace.countP Event.isHttpDo = 1) := by
  have hfilter := uploadDocument_requests w uploadURL filePath file hopen hreq
  have hcount : (uploadDocument w uploadURL filePath).trace.countP Event.isHttpDo
      = (clientDo w ⟨"PUT", uploadURL, some file⟩).2.length := by
    rw [List.countP_eq_length_filter, hfilter]
  have hok : ∀ resp, (clientDo w ⟨"PUT", uploadURL, some file⟩).1 = .ok resp →
      ((uploadDocument w uploadURL filePath).err = none ↔ resp.StatusCode = 200) ∧
      (resp.StatusCode ≠ 200 →
        (uploadDocument w uploadURL filePath).err
          = some (.uploadStatus resp.StatusCode)) := by
    intro resp hdo
    simp only [uploadDocument, hopen, hreq, hdo]
    by_cases hs : resp.StatusCode = 200 <;> simp [hs]
  have herr : ∀ e, (clientDo w ⟨"PUT", uploadURL, some file⟩).1 = .error e →
      (uploadDocument w uploadURL filePath).err = some e := by
    intro e hdo
    simp only [uploadDocument, hopen, hreq, hdo]
  refine ⟨hok, herr, hfilter, ?_, ?_, ?_, ?_⟩
  · rw [hcount]
    exact clientSend_length w 9 _
  · rw [hfilter]
    exact clientSend_put w 9 uploadURL (some file)
  · intro e hsend
    have hd := clientSend_error w 9 _ e hsend
    refine ⟨herr e (by simp [clientDo, hd]), ?_⟩
    rw [hcount]; simp [clientDo, hd]
  · intro hop hsend hfinal
    have hd := clientSend_final w 9 _ hop hsend (by
      rcases hfinal with ⟨h1, h2, h3⟩ | hl
      · left; simp [redirectMethod, h1, h2, h3]
      · right; exact hl)
    have h1 := hok hop.resp (by simp [clientDo, hd])
    refine ⟨h1.1, h1.2, ?_⟩
    rw [hcount]; simp [clientDo, hd]

/-- A `201 Created` answer is reported as a failure, after one request. -/
theorem uploadDocument_status_witness :
    (uploadDocument (World.putStatus 201) "u" "f").err = some (.uploadStatus 201) ∧
    (uploadDocument (World.putStatus 201) "u" "f").trace.countP Event.isHttpDo = 1 :=
  ⟨((uploadDocument_status (World.putStatus 201) "u" "f" ⟨[], none⟩ rfl rfl).2.2.2.2.2.2
      ⟨⟨201, 0, ⟨[], none⟩⟩, ""⟩ rfl (Or.inr rfl)).2.1 (by decide),
   ((uploadDocument_status (World.putStatus 201) "u" "f" ⟨[], none⟩ rfl rfl).2.2.2.2.2.2
      ⟨⟨201, 0, ⟨[], none⟩⟩, ""⟩ rfl (Or.inr rfl)).2.2⟩

/-- C2 as stated fails when the `PUT` is answered `302` with a `Location`:
the file opens, the request is built, the client follows with a `GET` that
is answered `200`, and `uploadDocument` returns nil after two requests,
although the status answered to the `PUT` is not 200. -/
theorem uploadDocument_redirect_counterexample :
    World.redirecting.osOpen "f" = .ok ⟨[], none⟩ ∧
    World.redirecting.newRequest "PUT" "u" = none ∧
    World.redirecting.send ⟨"PUT", "u", some ⟨[], none⟩⟩
      = .ok ⟨⟨302, 0, ⟨[], none⟩⟩, "v"⟩ ∧
    (uploadDocument World.redirecting "u" "f").err = none ∧
    (uploadDocument World.redirecting "u" "f").trace.filter Event.isHttpDo
      = [.httpDo "PUT" "u" true, .httpDo "GET" "v" true] ∧
    (uploadDocument World.redirecting "u" "f").trace.countP Event.isHttpDo = 2 := by
  refine ⟨rfl, rfl, rfl, ?_, ?_, ?_⟩ <;> decide

/-- A server that redirects for ever is given up after ten requests. -/
theorem uploadDocument_redirect_limit :
    (uploadDocument World.looping "u" "f").err
      = some (.env "stopped after 10 redirects") ∧
    (uploadDocument World.looping "u" "f").trace.countP Event.isHttpDo = 10 := by
  constructor <;> decide

/-! ## The shape of a run -/

/-- Every run of `main` is one of seven: a stage fails after the earlier ones
succeeded, or all six succeed. -/
theorem main_cases (w : World) :
    (∃ e, stageError w .readCredentials = some e ∧
      main w = ⟨1, (callReadCredentials w).trace ++ [.logFatal e]⟩) ∨
    (∃ e, stageError w .readCredentials = none ∧ stageError w .createClient = some e ∧
      main w = ⟨1, traceRead w ++
        [.newClient credentialPath false, .logFatal e]⟩) ∨
    (∃ e, stageError w .readCredentials = none ∧ stageError w .createClient = none ∧
      stageError w .generateUploadURL = some e ∧
      main w = ⟨1, traceClient w ++ (callGenerateUploadURL w).trace ++
        [.logFatal e]⟩) ∨
    (∃ e, stageError w .readCredentials = none ∧ stageError w .createClient = none ∧
      stageError w .generateUploadURL = none ∧ stageError w .upload = some e ∧
      main w = ⟨1, traceUploadURL w ++ (callUploadDocument w).trace ++
        [.logFatal e]⟩) ∨
    (∃ e, stageError w .readCredentials = none ∧ stageError w .createClient = none ∧
      stageError w .generateUploadURL = none ∧ stageError w .upload = none ∧
      stageError w .generateDownloadURL = some e ∧
      main w = ⟨1, traceUpload w ++ (callGenerateDownloadURL w).trace ++
        [.logFatal e]⟩) ∨
    (∃ e, stageError w .readCredentials = none ∧ stageError w .createClient = none ∧
      stageError w .generateUploadURL = none ∧ stageError w .upload = none ∧
      stageError w .generateDownloadURL = none ∧ stageError w .download = some e ∧
      main w = ⟨1, traceDownloadURL w ++ (callDownloadDocument w).trace ++
        [.logFatal e]⟩) ∨
    (stageError w .readCredentials = none ∧ stageError w .createClient = none ∧
      stageError w .generateUploadURL = none ∧ stageError w .upload = none ∧
      stageError w .generateDownloadURL = none ∧ stageError w .download = none ∧
      main w = ⟨0, traceDownload w⟩) := by
  simp only [stageError, traceDownload, traceDownloadURL, traceUpload, traceUploadURL,
    traceClient, traceRead, callDownloadDocument, callGenerateDownloadURL,
    callUploadDocument, callGenerateUploadURL, callReadCredentials]
  rcases h1 : (readCredentials w credentialPath).err with _ | e
  swap
  · exact Or.inl ⟨e, rfl, by simp [main, h1, logFatal]⟩
  right
  rcases h2 : w.newClient credentialPath with _ | e
  swap
  · exact Or.inl ⟨e, rfl, rfl, by simp [main, h1, h2, logFatal]⟩
  right
  rcases h3 : (generateUploadURL w w.nowUpload bucketName (w.uuidNew ++ ".jpeg")
    expirationSec (readCredentials w credentialPath).val.ClientEmail).err with _ | e
  swap
  · exact Or.inl ⟨e, rfl, rfl, rfl, by simp [main, h1, h2, h3, logFatal]⟩
  right
  rcases h4 : (uploadDocument w (generateUploadURL w w.nowUpload bucketName
    (w.uuidNew ++ ".jpeg") expirationSec
    (readCredentials w credentialPath).val.ClientEmail).val uploadFilePath).err with _ | e
  swap
  · exact Or.inl ⟨e, rfl, rfl, rfl, rfl, by simp [main, h1, h2, h3, h4, logFatal]⟩
  right
  rcases h5 : (generateDownloadURL w w.nowDownload bucketName (w.uuidNew ++ ".jpeg")
    expirationSec).err with _ | e
  swap
  · exact Or.inl ⟨e, rfl, rfl, rfl, rfl, rfl, by simp [main, h1, h2, h3, h4, h5, logFatal]⟩
  right
  rcases h6 : (downloadDocument w (generateDownloadURL w w.nowDownload bucketName
    (w.uuidNew ++ ".jpeg") expirationSec).val downloadFilePath).err with _ | e
  swap
  · exact Or.inl ⟨e, rfl, rfl, rfl, rfl, rfl, rfl,
      by simp [main, h1, h2, h3, h4, h5, h6, logFatal]⟩
  right
  exact ⟨rfl, rfl, rfl, rfl, rfl, rfl, by simp [main, h1, h2, h3, h4, h5, h6]⟩

/-! ## Signing -/

theorem readCredentials_trace_cases (w : World) (path : String) :
    ∃ a b, (readCredentials w path).trace = [.osOpen path false] ∨
      (readCredentials w path).trace = [.osOpen path a, .readAll path b, .fileClose path] := by
  unfold readCredentials
  split
  · exact ⟨true, true, Or.inl rfl⟩
  · split
    · exact ⟨true, false, Or.inr rfl⟩
    · dsimp only
      split
      · exact ⟨true, true, Or.inr rfl⟩
      · exact ⟨true, true, Or.inr rfl⟩

theorem uploadDocument_trace_cases (w : World) (url path : String) :
    ∃ hops : List Event, (∀ ev ∈ hops, ev.isHttpDo = true) ∧
      ((uploadDocument w url path).trace = [.osOpen path false] ∨
      (uploadDocument w url path).trace = [.osOpen path true, .fileClose path] ∨
      (uploadDocument w url path).trace = .osOpen path true :: (hops ++ [.fileClose path]) ∨
      (uploadDocument w url path).trace =
        .osOpen path true :: (hops ++ [.bodyClose, .fileClose path])) := by
  rcases hopen : w.osOpen path with e | file
  · exact ⟨[], by simp, Or.inl (by simp only [uploadDocument, hopen])⟩
  · rcases hreq : w.newRequest "PUT" url with _ | e
    · refine ⟨(clientDo w ⟨"PUT", url, some file⟩).2, clientSend_trace_isHttpDo w 9 _, ?_⟩
      simp only [uploadDocument, hopen, hreq]
      split
      · exact Or.inr (Or.inr (Or.inl rfl))
      · split <;> exact Or.inr (Or.inr (Or.inr rfl))
    · exact ⟨[], by simp, Or.inr (Or.inl (by simp only [uploadDocument, hopen, hreq]))⟩

theorem not_mem_of_isHttpDo (hops : List Event) (h : ∀ ev ∈ hops, ev.isHttpDo = true)
    (ev : Event) (hev : ev.isHttpDo = false) : ev ∉ hops := by
  intro hm
  rw [h ev hm] at hev
  exact absurd hev (by simp)

theorem stagesRun_of_isHttpDo (hops : List Event) (h : ∀ ev ∈ hops, ev.isHttpDo = true) :
    stagesRun hops = [] := by
  induction hops with
  | nil => rfl
  | cons ev rest ih =>
    have hev := h ev (List.mem_cons_self _ _)
    have hrest := ih (fun e he => h e (List.mem_cons_of_mem _ he))
    cases ev <;> simp [Event.isHttpDo] at hev
    simpa [stagesRun, List.filterMap_cons, Event.begins] using hrest

theorem downloadDocument_trace_cases (w : World) (url path : String) :
    ∃ d, (downloadDocument w url path).trace = [.httpGet url false] ∨
      (downloadDocument w url path).trace =
        [.httpGet url true, .osCreate path false, .bodyClose] ∨
      (downloadDocument w url path).trace =
        [.httpGet url true, .osCreate path true, .write path d, .fileClose path,
         .bodyClose] := by
  rcases hget : w.httpGet url with e | resp
  · exact ⟨[], Or.inl (by simp only [downloadDocument, hget])⟩
  · rcases hcreate : w.osCreate path with e | file
    · exact ⟨[], Or.inr (Or.inl (by simp only [downloadDocument, hget, hcreate]))⟩
    · refine ⟨(ioCopy file resp.Body).written, Or.inr (Or.inr ?_)⟩
      simp only [downloadDocument, hget, hcreate]
      split
      · rfl
      · split <;> rfl

theorem generateUploadURL_trace (w : World) (now : Int) (bucket object : String)
    (expSec : Int) (googleAccessID : String) :
    (generateUploadURL w now bucket object expSec googleAccessID).trace =
      [.signedURL bucket object
        ⟨googleAccessID, "PUT", timeAdd now (expiresDuration expSec)⟩
        (succeeded (w.signedURL bucket object
          ⟨googleAccessID, "PUT", timeAdd now (expiresDuration expSec)⟩))] := by
  simp only [generateUploadURL]
  split <;> simp_all [succeeded]

theorem generateDownloadURL_trace (w : World) (now : Int) (bucket object : String)
    (expSec : Int) :
    (generateDownloadURL w now bucket object expSec).trace =
      [.signedURL bucket object ⟨"", "GET", timeAdd now (expiresDuration expSec)⟩
        (succeeded (w.signedURL bucket object
          ⟨"", "GET", timeAdd now (expiresDuration expSec)⟩))] := by
  simp only [generateDownloadURL]
  split <;> simp_all [succeeded]

theorem signedURL_not_mem_readCredentials (w : World) (p b o : String)
    (opts : SignedURLOptions) (ok : Bool) :
    Event.signedURL b o opts ok ∉ (readCredentials w p).trace := by
  obtain ⟨a, c, h | h⟩ := readCredentials_trace_cases w p <;> simp [h]

theorem signedURL_not_mem_uploadDocument (w : World) (u p b o : String)
    (opts : SignedURLOptions) (ok : Bool) :
    Event.signedURL b o opts ok ∉ (uploadDocument w u p).trace := by
  obtain ⟨hops, hh, h | h | h | h⟩ := uploadDocument_trace_cases w u p <;>
    simp [h, not_mem_of_isHttpDo hops hh _ (rfl : (Event.signedURL b o opts ok).isHttpDo = false)]

theorem signedURL_not_mem_downloadDocument (w : World) (u p b o : String)
    (opts : SignedURLOptions) (ok : Bool) :
    Event.signedURL b o opts ok ∉ (downloadDocument w u p).trace := by
  obtain ⟨a, h | h | h⟩ := downloadDocument_trace_cases w u p <;> simp [h]

/-- C7: `generateUploadURL` makes one signing call, for the given bucket and
object, with method `PUT` and the given `googleAccessID` as signing identity;
`generateDownloadURL` makes one, with method `GET` and no signing identity.
Each returns the signer's URL as it is, or `""` with the signer's error.  In
`main` the identity of the upload URL is the `ClientEmail` read from the
credential file. -/
theorem generate_signs_as_asked (w : World) (now : Int) (bucket object : String)
    (expSec : Int) (googleAccessID : String) :
    (∃ t,
      (generateUploadURL w now bucket object expSec googleAccessID).trace =
        [.signedURL bucket object ⟨googleAccessID, "PUT", t⟩
          (succeeded (w.signedURL bucket object ⟨googleAccessID, "PUT", t⟩))] ∧
      (∀ u, w.signedURL bucket object ⟨googleAccessID, "PUT", t⟩ = .ok u →
        (generateUploadURL w now bucket object expSec googleAccessID).val = u ∧
        (generateUploadURL w now bucket object expSec googleAccessID).err = none) ∧
      (∀ e, w.signedURL bucket object ⟨googleAccessID, "PUT", t⟩ = .error e →
        (generateUploadURL w now bucket object expSec googleAccessID).val = "" ∧
        (generateUploadURL w now bucket object expSec googleAccessID).err = some e)) ∧
    (∃ t,
      (generateDownloadURL w now bucket object expSec).trace =
        [.signedURL bucket object ⟨"", "GET", t⟩
          (succeeded (w.signedURL bucket object ⟨"", "GET", t⟩))] ∧
      (∀ u, w.signedURL bucket object ⟨"", "GET", t⟩ = .ok u →
        (generateDownloadURL w now bucket object expSec).val = u ∧
        (generateDownloadURL w now bucket object expSec).err = none) ∧
      (∀ e, w.signedURL bucket object ⟨"", "GET", t⟩ = .error e →
        (generateDownloadURL w now bucket object expSec).val = "" ∧
        (generateDownloadURL w now bucket object expSec).err = some e)) ∧
    (∀ ev ∈ (main w).trace, ∀ b o opts ok, ev = .signedURL b o opts ok →
      opts.Method = "PUT" →
      opts.GoogleAccessID = (readCredentials w credentialPath).val.ClientEmail) := by
  refine ⟨⟨timeAdd now (expiresDuration expSec), ?_, ?_, ?_⟩,
    ⟨timeAdd now (expiresDuration expSec), ?_, ?_, ?_⟩, ?_⟩
  · exact generateUploadURL_trace w now bucket object expSec googleAccessID
  · intro u hu; simp only [generateUploadURL, hu]; simp
  · intro e he; simp only [generateUploadURL, he]; simp
  · exact generateDownloadURL_trace w now bucket object expSec
  · intro u hu; simp only [generateDownloadURL, hu]; simp
  · intro e he; simp only [generateDownloadURL, he]; simp
  · intro ev hev b o opts ok hEq hM
    subst hEq
    rcases main_cases w with ⟨e, -, h⟩ | ⟨e, -, -, h⟩ | ⟨e, -, -, -, h⟩ | ⟨e, -, -, -, -, h⟩ |
      ⟨e, -, -, -, -, -, h⟩ | ⟨e, -, -, -, -, -, -, h⟩ | ⟨-, -, -, -, -, -, h⟩
    all_goals
      rw [h] at hev
      simp only [traceDownload, traceDownloadURL, traceUpload, traceUploadURL, traceClient,
        traceRead, callDownloadDocument, callGenerateDownloadURL, callUploadDocument,
        callGenerateUploadURL, callReadCredentials, generateUploadURL_trace,
        generateDownloadURL_trace, List.mem_append, List.mem_cons, List.mem_singleton,
        signedURL_not_mem_readCredentials, signedURL_not_mem_uploadDocument,
        signedURL_not_mem_downloadDocument, List.not_mem_nil, false_or, or_false,
        reduceCtorEq, Event.signedURL.injEq] at hev
    all_goals first
      | (rcases hev with ⟨-, -, ho, -⟩ | ⟨-, -, ho, -⟩
         · subst ho; rfl
         · subst ho; simp at hM)
      | (obtain ⟨-, -, ho, -⟩ := hev; subst ho; rfl)

/-- With a failing signer the upload generator hands back `""` and the
signer's error. -/
theorem generate_signs_as_asked_witness :
    (generateUploadURL World.signerDown 0 "b" "o" 60 "id").val = "" ∧
    (generateUploadURL World.signerDown 0 "b" "o" 60 "id").err
      = some (.env "signing failed") :=
  (generate_signs_as_asked World.signerDown 0 "b" "o" 60 "id").1.elim
    (fun _ h => h.2.2 (.env "signing failed") rfl)

/-! ## Expiry -/

theorem expiresDuration_exact_iff (expSec : Int) :
    expiresDuration expSec = expSec * 1000000000 ↔
      -9223372036 ≤ expSec ∧ expSec ≤ 9223372036 := by
  simp only [expiresDuration, wrapInt64, timeSecond]
  norm_num
  omega

/-- C8, as the code has it: the expiry both generators hand to the signer is
the instant `expirationSec` seconds after `now` exactly when `expirationSec`
lies between -9223372036 and 9223372036, the values whose count of
nanoseconds fits `int64`. -/
theorem expiry_exact_iff_in_range (w : World) (now : Int) (bucket object : String)
    (expSec : Int) (googleAccessID : String) :
    (signedExpiries (generateUploadURL w now bucket object expSec googleAccessID).trace
        = [now + expSec * 1000000000] ↔
      -9223372036 ≤ expSec ∧ expSec ≤ 9223372036) ∧
    (signedExpiries (generateDownloadURL w now bucket object expSec).trace
        = [now + expSec * 1000000000] ↔
      -9223372036 ≤ expSec ∧ expSec ≤ 9223372036) := by
  rw [generateUploadURL_trace, generateDownloadURL_trace]
  simp only [signedExpiries, timeAdd, List.cons.injEq, and_true, add_right_inj]
  exact ⟨expiresDuration_exact_iff expSec, expiresDuration_exact_iff expSec⟩

/-- The configured 3600000 seconds are within the range: the upload URL
expires 3600000 seconds after the instant of signing. -/
theorem expiry_exact_iff_in_range_witness :
    signedExpiries (generateUploadURL World.calm 5 bucketName "o" expirationSec "id").trace
      = [5 + expirationSec * 1000000000] :=
  (expiry_exact_iff_in_range World.calm 5 bucketName "o" expirationSec "id").1.2
    (by decide)

/-- C8 as stated fails at `expirationSec = 9223372037`, an `int64` value: the
product with `time.Second` wraps, and the expiry handed to the signer lies
before `now = 0` instead of 9223372037 seconds after it. -/
theorem expiry_wraps_counterexample :
    (-(2 : Int) ^ 63 ≤ 9223372037 ∧ (9223372037 : Int) < 2 ^ 63) ∧
    signedExpiries (generateUploadURL World.calm 0 "b" "o" 9223372037 "id").trace
      = [-9223372036709551616] ∧
    signedExpiries (generateDownloadURL World.calm 0 "b" "o" 9223372037).trace
      = [-9223372036709551616] ∧
    (-9223372036709551616 : Int) ≠ 0 + 9223372037 * 1000000000 := by
  refine ⟨by decide, ?_, ?_, by decide⟩
  · rw [generateUploadURL_trace]; decide
  · rw [generateDownloadURL_trace]; decide

/-! ## Release of the client -/

/-- In every run, `client.Close()` is called exactly when the process exits
with status 0. -/
theorem main_closes_client_iff_success (w : World) :
    Event.clientClose ∈ (main w).trace ↔ (main w).exitCode = 0 := by
  have hr : ∀ p, Event.clientClose ∉ (readCredentials w p).trace := fun p => by
    obtain ⟨a, c, h | h⟩ := readCredentials_trace_cases w p <;> simp [h]
  have hu : ∀ u p, Event.clientClose ∉ (uploadDocument w u p).trace := fun u p => by
    obtain ⟨hops, hh, h | h | h | h⟩ := uploadDocument_trace_cases w u p <;>
      simp [h, not_mem_of_isHttpDo hops hh _ (rfl : Event.clientClose.isHttpDo = false)]
  have hd : ∀ u p, Event.clientClose ∉ (downloadDocument w u p).trace := fun u p => by
    obtain ⟨a, h | h | h⟩ := downloadDocument_trace_cases w u p <;> simp [h]
  rcases main_cases w with ⟨e, -, h⟩ | ⟨e, -, -, h⟩ | ⟨e, -, -, -, h⟩ | ⟨e, -, -, -, -, h⟩ |
    ⟨e, -, -, -, -, -, h⟩ | ⟨e, -, -, -, -, -, -, h⟩ | ⟨-, -, -, -, -, -, h⟩
  all_goals
    rw [h]
    simp [traceDownload, traceDownloadURL, traceUpload, traceUploadURL, traceClient,
      traceRead, callDownloadDocument, callGenerateDownloadURL, callUploadDocument,
      callGenerateUploadURL, callReadCredentials, generateUploadURL_trace,
      generateDownloadURL_trace, hr, hu, hd]

/-- C5, at a run where it fails: the client is created, then signing the
upload URL fails; the process exits with status 1 and `client.Close()` was
never called. -/
theorem main_fatal_skips_close :
    Event.newClient credentialPath true ∈ (main World.signerDown).trace ∧
    (main World.signerDown).exitCode = 1 ∧
    Event.clientClose ∉ (main World.signerDown).trace := by
  refine ⟨?_, ?_, ?_⟩
  · decide
  · decide
  · decide

/-! ## Order of the stages -/

theorem stagesRun_append (a b : List Event) :
    stagesRun (a ++ b) = stagesRun a ++ stagesRun b := by
  simp [stagesRun, List.filterMap_append]

theorem stagesRun_readCredentials (w : World) :
    stagesRun (readCredentials w credentialPath).trace = [.readCredentials] := by
  obtain ⟨a, c, h | h⟩ := readCredentials_trace_cases w credentialPath <;>
    simp [h, stagesRun, List.filterMap_cons, Event.begins]

theorem uploadFilePath_ne_credentialPath : uploadFilePath ≠ credentialPath := by decide

theorem stagesRun_uploadDocument (w : World) (u : String) :
    stagesRun (uploadDocument w u uploadFilePath).trace = [.upload] := by
  obtain ⟨hops, hh, h | h | h | h⟩ := uploadDocument_trace_cases w u uploadFilePath
  · simp [h, stagesRun, List.filterMap_cons, Event.begins, uploadFilePath_ne_credentialPath]
  · simp [h, stagesRun, List.filterMap_cons, Event.begins, uploadFilePath_ne_credentialPath]
  · have h0 := stagesRun_of_isHttpDo hops hh
    rw [h, show Event.osOpen uploadFilePath true :: (hops ++ [Event.fileClose uploadFilePath])
      = [Event.osOpen uploadFilePath true] ++ hops ++ [Event.fileClose uploadFilePath] by simp,
      stagesRun_append, stagesRun_append, h0]
    simp [stagesRun, List.filterMap_cons, Event.begins, uploadFilePath_ne_credentialPath]
  · have h0 := stagesRun_of_isHttpDo hops hh
    rw [h, show Event.osOpen uploadFilePath true ::
        (hops ++ [Event.bodyClose, Event.fileClose uploadFilePath])
      = [Event.osOpen uploadFilePath true] ++ hops ++
        [Event.bodyClose, Event.fileClose uploadFilePath] by simp,
      stagesRun_append, stagesRun_append, h0]
    simp [stagesRun, List.filterMap_cons, Event.begins, uploadFilePath_ne_credentialPath]

theorem stagesRun_downloadDocument (w : World) (u p : String) :
    stagesRun (downloadDocument w u p).trace = [.download] := by
  obtain ⟨a, h | h | h⟩ := downloadDocument_trace_cases w u p <;>
    simp [h, stagesRun, List.filterMap_cons, Event.begins]

theorem stagesRun_traceRead (w : World) : stagesRun (traceRead w) = [.readCredentials] := by
  simp [traceRead, callReadCredentials, stagesRun_append, stagesRun_readCredentials]
  simp [stagesRun, List.filterMap_cons, Event.begins]

theorem stagesRun_traceClient (w : World) :
    stagesRun (traceClient w) = [.readCredentials, .createClient] := by
  simp [traceClient, stagesRun_append, stagesRun_traceRead]
  simp [stagesRun, List.filterMap_cons, Event.begins]

theorem stagesRun_traceUploadURL (w : World) :
    stagesRun (traceUploadURL w) = [.readCredentials, .createClient, .generateUploadURL] := by
  simp [traceUploadURL, stagesRun_append, stagesRun_traceClient, callGenerateUploadURL,
    generateUploadURL_trace]
  simp [stagesRun, List.filterMap_cons, Event.begins]

theorem stagesRun_traceUpload (w : World) :
    stagesRun (traceUpload w) =
      [.readCredentials, .createClient, .generateUploadURL, .upload] := by
  simp [traceUpload, stagesRun_append, stagesRun_traceUploadURL, callUploadDocument,
    stagesRun_uploadDocument]
  simp [stagesRun, List.filterMap_cons, Event.begins]

theorem stagesRun_traceDownloadURL (w : World) :
    stagesRun (traceDownloadURL w) =
      [.readCredentials, .createClient, .generateUploadURL, .upload,
       .generateDownloadURL] := by
  simp [traceDownloadURL, stagesRun_append, stagesRun_traceUpload, callGenerateDownloadURL,
    generateDownloadURL_trace]
  simp [stagesRun, List.filterMap_cons, Event.begins]

theorem stagesRun_traceDownload (w : World) :
    stagesRun (traceDownload w) = Stage.order := by
  simp [traceDownload, stagesRun_append, stagesRun_traceDownloadURL, callDownloadDocument,
    stagesRun_downloadDocument]
  simp [stagesRun, List.filterMap_cons, Event.begins, Stage.order]

theorem Stage.index_injective (s t : Stage) (h : s.index = t.index) : s = t := by
  cases s <;> cases t <;> simp [Stage.index] at h <;> rfl

/-- Every run either stops at its first failing stage or goes through all
six. -/
theorem main_outcomes (w : World) :
    (∃ s e, stageError w s = some e ∧
      (∀ s', s'.index < s.index → stageError w s' = none) ∧
      (main w).exitCode = 1 ∧
      stagesRun (main w).trace = Stage.order.take (s.index + 1) ∧
      (main w).trace.getLast? = some (.logFatal e)) ∨
    ((∀ s, stageError w s = none) ∧ (main w).exitCode = 0 ∧
      stagesRun (main w).trace = Stage.order) := by
  rcases main_cases w with ⟨e, h1, h⟩ | ⟨e, h1, h2, h⟩ | ⟨e, h1, h2, h3, h⟩ |
    ⟨e, h1, h2, h3, h4, h⟩ | ⟨e, h1, h2, h3, h4, h5, h⟩ | ⟨e, h1, h2, h3, h4, h5, h6, h⟩ |
    ⟨h1, h2, h3, h4, h5, h6, h⟩
  · refine Or.inl ⟨.readCredentials, e, h1, ?_, ?_, ?_, ?_⟩
    · intro s' hs'; cases s' <;> simp [Stage.index] at hs'
    · rw [h]
    · rw [h]
      simp [stagesRun_append, callReadCredentials, stagesRun_readCredentials, Stage.order,
        Stage.index]
      simp [stagesRun, Event.begins]
    · rw [h]; simp
  · refine Or.inl ⟨.createClient, e, h2, ?_, ?_, ?_, ?_⟩
    · intro s' hs'; cases s' <;> simp [Stage.index] at hs'; assumption
    · rw [h]
    · rw [h]
      simp [stagesRun_append, stagesRun_traceRead, Stage.order, Stage.index]
      simp [stagesRun, Event.begins]
    · rw [h]; simp
  · refine Or.inl ⟨.generateUploadURL, e, h3, ?_, ?_, ?_, ?_⟩
    · intro s' hs'; cases s' <;> simp [Stage.index] at hs' <;> assumption
    · rw [h]
    · rw [h]
      simp [stagesRun_append, stagesRun_traceClient, callGenerateUploadURL,
        generateUploadURL_trace, Stage.order, Stage.index]
      simp [stagesRun, Event.begins]
    · rw [h]; simp
  · refine Or.inl ⟨.upload, e, h4, ?_, ?_, ?_, ?_⟩
    · intro s' hs'; cases s' <;> simp [Stage.index] at hs' <;> assumption
    · rw [h]
    · rw [h]
      simp [stagesRun_append, stagesRun_traceUploadURL, callUploadDocument,
        stagesRun_uploadDocument, Stage.order, Stage.index]
      simp [stagesRun, Event.begins]
    · rw [h]; simp
  · refine Or.inl ⟨.generateDownloadURL, e, h5, ?_, ?_, ?_, ?_⟩
    · intro s' hs'; cases s' <;> simp [Stage.index] at hs' <;> assumption
    · rw [h]
    · rw [h]
      simp [stagesRun_append, stagesRun_traceUpload, callGenerateDownloadURL,
        generateDownloadURL_trace, Stage.order, Stage.index]
      simp [stagesRun, Event.begins]
    · rw [h]; simp
  · refine Or.inl ⟨.download, e, h6, ?_, ?_, ?_, ?_⟩
    · intro s' hs'; cases s' <;> simp [Stage.index] at hs' <;> assumption
    · rw [h]
    · rw [h]
      simp [stagesRun_append, stagesRun_traceDownloadURL, callDownloadDocument,
        stagesRun_downloadDocument, Stage.order, Stage.index]
      simp [stagesRun, Event.begins]
    · rw [h]; simp
  · refine Or.inr ⟨?_, ?_, ?_⟩
    · intro s; cases s <;> assumption
    · rw [h]
    · rw [h]; exact stagesRun_traceDownload w

/-- C6: in every run of `main` the stages are entered in source order; the
exit status is 0 when no stage fails and 1 otherwise; when a stage fails
after the earlier ones succeeded, the run ends there with `log.Fatal` of that
error, having entered that stage and the earlier ones and no later one; and
when the credential file cannot be opened the run makes no call to create a
client, to sign a URL or to send an HTTP request. -/
theorem main_stage_order_fail_fast (w : World) :
    stagesRun (main w).trace <+: Stage.order ∧
    ((main w).exitCode = 0 ↔ ∀ s, stageError w s = none) ∧
    ((main w).exitCode = 1 ↔ ∃ s e, stageError w s = some e) ∧
    (∀ s e, stageError w s = some e →
      (∀ s', s'.index < s.index → stageError w s' = none) →
      (main w).exitCode = 1 ∧
      stagesRun (main w).trace = Stage.order.take (s.index + 1) ∧
      (main w).trace.getLast? = some (.logFatal e)) ∧
    (∀ e, w.osOpen credentialPath = .error e →
      main w = ⟨1, [.osOpen credentialPath false, .logFatal e]⟩ ∧
      ∀ ev ∈ (main w).trace, ev.isNewClient = false ∧ ev.isSignedURL = false ∧
        ev.isHttpDo = false ∧ ev.isHttpGet = false) := by
  refine ⟨?_, ?_, ?_, ?_, ?_⟩
  · rcases main_outcomes w with ⟨s, e, -, -, -, h, -⟩ | ⟨-, -, h⟩
    · rw [h]; exact List.take_prefix _ _
    · rw [h]
  · rcases main_outcomes w with ⟨s, e, hs, -, hx, -, -⟩ | ⟨hall, hx, -⟩
    · constructor
      · intro h0; rw [hx] at h0; exact absurd h0 (by decide)
      · intro hall; rw [hall s] at hs; exact absurd hs (by simp)
    · exact ⟨fun _ => hall, fun _ => hx⟩
  · rcases main_outcomes w with ⟨s, e, hs, -, hx, -, -⟩ | ⟨hall, hx, -⟩
    · exact ⟨fun _ => ⟨s, e, hs⟩, fun _ => hx⟩
    · constructor
      · intro h1; rw [hx] at h1; exact absurd h1 (by decide)
      · rintro ⟨s, e, hs⟩; rw [hall s] at hs; exact absurd hs (by simp)
  · intro s e hs hprev
    rcases main_outcomes w with ⟨s0, e0, hs0, hprev0, hx, hst, hlast⟩ | ⟨hall, -, -⟩
    · have hidx : s.index = s0.index := by
        rcases Nat.lt_trichotomy s.index s0.index with hlt | heq | hgt
        · rw [hprev0 s hlt] at hs; exact absurd hs (by simp)
        · exact heq
        · rw [hprev s0 hgt] at hs0; exact absurd hs0 (by simp)
      have hss : s = s0 := Stage.index_injective s s0 hidx
      subst hss
      have hee : e = e0 := by rw [hs] at hs0; exact Option.some.inj hs0
      subst hee
      exact ⟨hx, hst, hlast⟩
    · rw [hall s] at hs; exact absurd hs (by simp)
  · intro e hopen
    have hm : main w = ⟨1, [.osOpen credentialPath false, .logFatal e]⟩ := by
      simp [main, readCredentials, hopen, logFatal]
    refine ⟨hm, ?_⟩
    rw [hm]
    intro ev hev
    simp only [List.mem_cons, List.mem_singleton, List.not_mem_nil, or_false] at hev
    rcases hev with rfl | rfl <;> simp [Event.isNewClient, Event.isSignedURL, Event.isHttpDo,
      Event.isHttpGet]

/-- A missing credential file: the run is the failed `os.Open` and the fatal
log, and the only stage entered is the first. -/
theorem main_stage_order_fail_fast_witness :
    main World.noFiles =
      ⟨1, [.osOpen credentialPath false, .logFatal (.env "no such file or directory")]⟩ ∧
    stagesRun (main World.noFiles).trace = [.readCredentials] :=
  ⟨((main_stage_order_fail_fast World.noFiles).2.2.2.2 (.env "no such file or directory")
      rfl).1,
   ((main_stage_order_fail_fast World.noFiles).2.2.2.1 .readCredentials
      (.env "no such file or directory") rfl
      (fun _ hs' => absurd hs' (Nat.not_lt_zero _))).2.1⟩

/-! ## Credentials -/

theorem findField_private_key : findField "private_key" = some .PrivateKey := by decide
theorem findField_client_email : findField "client_email" = some .ClientEmail := by decide
theorem findField_project_id : findField "project_id" = some .ProjectID := by decide

theorem decodeMembers_keeps_error (ms : List (String × JSON)) (c : Credentials) (e : Error) :
    (decodeMembers ms (c, some e)).2 = some e := by
  induction ms generalizing c with
  | nil => rfl
  | cons m rest ih =>
    obtain ⟨key, v⟩ := m
    unfold decodeMembers
    rcases findField key with _ | f
    · exact ih c
    · exact ih _

theorem storeString_err (c : Credentials) (f : Field) (v : JSON) :
    (storeString c f v).2 = none ↔ v.fitsString = true := by
  cases v <;> simp [storeString, JSON.fitsString]

/-- Decoding an object raises no error exactly when every member that
selects a field holds a string or `null`. -/
theorem decodeMembers_err_none_iff (ms : List (String × JSON)) (c : Credentials) :
    (decodeMembers ms (c, none)).2 = none ↔
      ∀ m ∈ ms, findField m.1 ≠ none → m.2.fitsString = true := by
  induction ms generalizing c with
  | nil => simp [decodeMembers]
  | cons m rest ih =>
    obtain ⟨key, v⟩ := m
    unfold decodeMembers
    rcases hf : findField key with _ | f
    · simp only [List.mem_cons, forall_eq_or_imp, hf, ne_eq, not_true_eq_false,
        false_implies, true_and]
      exact ih c
    · simp only [List.mem_cons, forall_eq_or_imp, hf, ne_eq, reduceCtorEq,
        not_false_eq_true, true_implies]
      rcases hs : (storeString c f v).2 with _ | e
      · have hv := (storeString_err c f v).1 hs
        simp only [saveError, hv, true_and]
        exact ih _
      · have hv : v.fitsString ≠ true := fun h => by
          rw [(storeString_err c f v).2 h] at hs; exact absurd hs (by simp)
        simp only [saveError, decodeMembers_keeps_error, hv, false_and, reduceCtorEq]

/-- Decoding a credential object whose field-selecting members are the three
expected ones yields their values. -/
theorem decodeMembers_values (pk ce pid : String) (ms : List (String × JSON))
    (c : Credentials)
    (hother : ∀ m ∈ ms, findField m.1 ≠ none →
      m = ("private_key", .str pk) ∨ m = ("client_email", .str ce) ∨
      m = ("project_id", .str pid)) :
    ((("private_key", JSON.str pk) ∈ ms →
        (decodeMembers ms (c, none)).1.PrivateKey = pk) ∧
      (("private_key", JSON.str pk) ∉ ms →
        (decodeMembers ms (c, none)).1.PrivateKey = c.PrivateKey)) ∧
    ((("client_email", JSON.str ce) ∈ ms →
        (decodeMembers ms (c, none)).1.ClientEmail = ce) ∧
      (("client_email", JSON.str ce) ∉ ms →
        (decodeMembers ms (c, none)).1.ClientEmail = c.ClientEmail)) ∧
    ((("project_id", JSON.str pid) ∈ ms →
        (decodeMembers ms (c, none)).1.ProjectID = pid) ∧
      (("project_id", JSON.str pid) ∉ ms →
        (decodeMembers ms (c, none)).1.ProjectID = c.ProjectID)) := by
  induction ms generalizing c with
  | nil => simp [decodeMembers]
  | cons m rest ih =>
    have hrest : ∀ m' ∈ rest, findField m'.1 ≠ none →
        m' = ("private_key", .str pk) ∨ m' = ("client_email", .str ce) ∨
        m' = ("project_id", .str pid) :=
      fun m' hm' => hother m' (List.mem_cons_of_mem _ hm')
    have hm := hother m (List.mem_cons_self _ _)
    obtain ⟨key, v⟩ := m
    unfold decodeMembers
    rcases hf : findField key with _ | f
    · have hk1 : ("private_key", JSON.str pk) ≠ (key, v) := fun h => by
        rw [← (Prod.mk.inj h).1, findField_private_key] at hf; exact absurd hf (by simp)
      have hk2 : ("client_email", JSON.str ce) ≠ (key, v) := fun h => by
        rw [← (Prod.mk.inj h).1, findField_client_email] at hf; exact absurd hf (by simp)
      have hk3 : ("project_id", JSON.str pid) ≠ (key, v) := fun h => by
        rw [← (Prod.mk.inj h).1, findField_project_id] at hf; exact absurd hf (by simp)
      simp only [List.mem_cons, hk1, hk2, hk3, false_or]
      exact ih c hrest
    · rcases hm (by simp [hf]) with h | h | h
      · obtain ⟨rfl, rfl⟩ := Prod.mk.inj h
        rw [findField_private_key] at hf
        obtain rfl := Option.some.inj hf
        have := ih (c.set .PrivateKey pk) hrest
        simp only [storeString, saveError, List.mem_cons, true_or, not_true_eq_false,
          true_implies, false_implies, and_true]
        simp only [Credentials.set] at this ⊢
        by_cases hin : ("private_key", JSON.str pk) ∈ rest
        · simpa [hin] using this
        · simpa [hin] using this
      · obtain ⟨rfl, rfl⟩ := Prod.mk.inj h
        rw [findField_client_email] at hf
        obtain rfl := Option.some.inj hf
        have := ih (c.set .ClientEmail ce) hrest
        simp only [storeString, saveError, List.mem_cons, true_or, not_true_eq_false,
          true_implies, false_implies, and_true]
        simp only [Credentials.set] at this ⊢
        by_cases hin : ("client_email", JSON.str ce) ∈ rest
        · simpa [hin] using this
        · simpa [hin] using this
      · obtain ⟨rfl, rfl⟩ := Prod.mk.inj h
        rw [findField_project_id] at hf
        obtain rfl := Option.some.inj hf
        have := ih (c.set .ProjectID pid) hrest
        simp only [storeString, saveError, List.mem_cons, true_or, not_true_eq_false,
          true_implies, false_implies, and_true]
        simp only [Credentials.set] at this ⊢
        by_cases hin : ("project_id", JSON.str pid) ∈ rest
        · simpa [hin] using this
        · simpa [hin] using this

theorem Credentials.get_set (c : Credentials) (g f : Field) (s : String) :
    (c.set g s).get f = if g = f then s else c.get f := by
  cases g <;> cases f <;> simp [Credentials.set, Credentials.get]

/-- After decoding, each field holds the string of the last member that
selected it with a string value. -/
theorem decodeMembers_get (f : Field) (ms : List (String × JSON)) (c : Credentials)
    (saved : Option Error) :
    (decodeMembers ms (c, saved)).1.get f = lastString f ms (c.get f) := by
  induction ms generalizing c saved with
  | nil => rfl
  | cons m rest ih =>
    obtain ⟨key, v⟩ := m
    unfold decodeMembers
    rcases hf : findField key with _ | g
    · rw [ih]
      cases v <;> simp [lastString, hf]
    · simp only []
      rw [ih]
      cases v with
      | str t =>
        simp only [storeString, lastString, hf, Credentials.get_set, Option.some.injEq]
        by_cases hg : g = f <;> simp [hg]
      | null => simp [storeString, lastString]
      | bool b => simp [storeString, lastString]
      | number n => simp [storeString, lastString]
      | array xs => simp [storeString, lastString]
      | object xs => simp [storeString, lastString]

theorem lastString_unselected (f : Field) (ms : List (String × JSON)) (cur : String)
    (h : ∀ m ∈ ms, findField m.1 ≠ some f) : lastString f ms cur = cur := by
  induction ms generalizing cur with
  | nil => rfl
  | cons m rest ih =>
    have hm := h m (List.mem_cons_self _ _)
    have hrest := fun m' hm' => h m' (List.mem_cons_of_mem _ hm')
    obtain ⟨key, v⟩ := m
    cases v <;> simp [lastString, ih _ hrest]
    exact fun hk => absurd hk hm

/-- C3, as the code has it: when the file opens and is read, and its content
is a JSON object that carries `private_key`, `client_email` and `project_id`
with string values and in which every member whose name selects a field
(names are compared ignoring case) is one of these three,
`readCredentials` returns no error and a record holding exactly the three
values, whatever other members the object has. -/
theorem readCredentials_roundtrip (w : World) (path : String) (file : File)
    (members : List (String × JSON)) (pk ce pid : String)
    (hopen : w.osOpen path = .ok file)
    (hread : file.readErr = none)
    (hparse : w.jsonParse file.data = .ok (.object members))
    (hpk : ("private_key", JSON.str pk) ∈ members)
    (hce : ("client_email", JSON.str ce) ∈ members)
    (hpid : ("project_id", JSON.str pid) ∈ members)
    (hother : ∀ m ∈ members, findField m.1 ≠ none →
      m = ("private_key", .str pk) ∨ m = ("client_email", .str ce) ∨
      m = ("project_id", .str pid)) :
    (readCredentials w path).err = none ∧
    (readCredentials w path).val = ⟨pk, ce, pid⟩ := by
  have herr : (decodeMembers members (Credentials.zero, none)).2 = none := by
    rw [decodeMembers_err_none_iff]
    intro m hm hf
    rcases hother m hm hf with h | h | h <;> rw [h] <;> rfl
  obtain ⟨⟨h1, -⟩, ⟨h2, -⟩, ⟨h3, -⟩⟩ :=
    decodeMembers_values pk ce pid members Credentials.zero hother
  have hval : (decodeMembers members (Credentials.zero, none)).1 = ⟨pk, ce, pid⟩ := by
    rcases hd : (decodeMembers members (Credentials.zero, none)).1 with ⟨a, b, c⟩
    rw [hd] at h1 h2 h3
    simp only [Credentials.mk.injEq]
    exact ⟨h1 hpk, h2 hce, h3 hpid⟩
  simp only [readCredentials, hopen, hread, jsonUnmarshal, hparse, decodeValue, herr, hval]
  simp

/-- A document with an additional `type` member is read back field by
field. -/
theorem readCredentials_roundtrip_witness :
    (readCredentials (World.holding (.object sampleMembers)) "c.json").err = none ∧
    (readCredentials (World.holding (.object sampleMembers)) "c.json").val
      = ⟨"k", "e", "p"⟩ :=
  readCredentials_roundtrip (World.holding (.object sampleMembers)) "c.json" ⟨[], none⟩
    sampleMembers "k" "e" "p" rfl rfl rfl
    (by simp [sampleMembers]) (by simp [sampleMembers]) (by simp [sampleMembers])
    (by
      intro m hm hf
      simp only [sampleMembers, List.mem_cons, List.mem_singleton, List.not_mem_nil,
        or_false] at hm
      rcases hm with rfl | rfl | rfl | rfl
      · exact absurd (by decide) hf
      · exact Or.inr (Or.inr rfl)
      · exact Or.inl rfl
      · exact Or.inr (Or.inl rfl))

/-- C3 as stated fails on a document whose additional member is named
`PRIVATE_KEY`: the name selects the field `PrivateKey` and its value replaces
the one of `private_key`. -/
theorem readCredentials_shadowed_counterexample :
    ("private_key", JSON.str "k") ∈ shadowedMembers ∧
    ("client_email", JSON.str "e") ∈ shadowedMembers ∧
    ("project_id", JSON.str "p") ∈ shadowedMembers ∧
    (readCredentials (World.holding (.object shadowedMembers)) "c.json").err = none ∧
    (readCredentials (World.holding (.object shadowedMembers)) "c.json").val
      = ⟨"x", "e", "p"⟩ ∧
    (readCredentials (World.holding (.object shadowedMembers)) "c.json").val.PrivateKey
      ≠ "k" := by
  refine ⟨by simp [shadowedMembers], by simp [shadowedMembers], by simp [shadowedMembers],
    by decide, by decide, by decide⟩

/-- C4, as the code has it: `readCredentials` returns the error of a failed
open, of a failed read and of a failed syntax check; it returns an error when
the JSON value is a boolean, number, string or array; for an object it
returns an error exactly when some member whose name selects a field holds a
value that is neither a string nor `null`, a field that no member selects is
left empty, and on success each field holds the string of the last member
that selects it with a string value (empty when there is none); `null` is
accepted and leaves the record empty; and whenever it returns an error the
record it returns has all three fields empty. -/
theorem readCredentials_errors (w : World) (path : String) :
    (∀ e, w.osOpen path = .error e → (readCredentials w path).err = some e) ∧
    (∀ file e, w.osOpen path = .ok file → file.readErr = some e →
      (readCredentials w path).err = some e) ∧
    (∀ file e, w.osOpen path = .ok file → file.readErr = none →
      w.jsonParse file.data = .error e → (readCredentials w path).err = some e) ∧
    (∀ file v, w.osOpen path = .ok file → file.readErr = none →
      w.jsonParse file.data = .ok v →
      (match v with
        | .object members =>
          ((readCredentials w path).err = none ↔
            ∀ m ∈ members, findField m.1 ≠ none → m.2.fitsString = true) ∧
          ((readCredentials w path).err = none →
            ∀ f, (readCredentials w path).val.get f = lastString f members "") ∧
          (∀ f, (∀ m ∈ members, findField m.1 ≠ some f) →
            (readCredentials w path).val.get f = "")
        | .null =>
          (readCredentials w path).err = none ∧
          (readCredentials w path).val = ⟨"", "", ""⟩
        | _ => (readCredentials w path).err ≠ none)) ∧
    ((readCredentials w path).err ≠ none →
      (readCredentials w path).val = ⟨"", "", ""⟩) := by
  have hzero : (readCredentials w path).err ≠ none →
      (readCredentials w path).val = ⟨"", "", ""⟩ := by
    intro herr
    rcases hopen : w.osOpen path with e | file
    · simp only [readCredentials, hopen]; rfl
    · rcases hread : file.readErr with _ | e
      · rcases hj : (jsonUnmarshal w file.data Credentials.zero).2 with _ | e
        · simp [readCredentials, hopen, hread, hj] at herr
        · simp only [readCredentials, hopen, hread, hj]; rfl
      · simp only [readCredentials, hopen, hread]; rfl
  refine ⟨?_, ?_, ?_, ?_, hzero⟩
  · intro e hopen
    simp only [readCredentials, hopen]
  · intro file e hopen hread
    simp only [readCredentials, hopen, hread]
  · intro file e hopen hread hparse
    simp only [readCredentials, hopen, hread, jsonUnmarshal, hparse]
  · intro file v hopen hread hparse
    cases v with
    | object members =>
      have hiff : (readCredentials w path).err = none ↔
          ∀ m ∈ members, findField m.1 ≠ none → m.2.fitsString = true := by
        simp only [readCredentials, hopen, hread, jsonUnmarshal, hparse, decodeValue]
        rw [← decodeMembers_err_none_iff members Credentials.zero]
        rcases (decodeMembers members (Credentials.zero, none)).2 with _ | e <;> simp
      have hval : (readCredentials w path).err = none →
          ∀ f, (readCredentials w path).val.get f = lastString f members "" := by
        intro herr f
        have hd := decodeMembers_get f members Credentials.zero none
        rcases hj : (decodeMembers members (Credentials.zero, none)).2 with _ | e
        · simp only [readCredentials, hopen, hread, jsonUnmarshal, hparse, decodeValue, hj]
          rw [hd]
          cases f <;> rfl
        · simp [readCredentials, hopen, hread, jsonUnmarshal, hparse, decodeValue, hj]
            at herr
      refine ⟨hiff, hval, ?_⟩
      intro f hf
      by_cases herr : (readCredentials w path).err = none
      · rw [hval herr f]
        exact lastString_unselected f members "" hf
      · rw [hzero herr]
        cases f <;> rfl
    | null => simp [readCredentials, hopen, hread, jsonUnmarshal, hparse, decodeValue,
        Credentials.zero]
    | bool b => simp [readCredentials, hopen, hread, jsonUnmarshal, hparse, decodeValue]
    | number n => simp [readCredentials, hopen, hread, jsonUnmarshal, hparse, decodeValue]
    | str t => simp [readCredentials, hopen, hread, jsonUnmarshal, hparse, decodeValue]
    | array xs => simp [readCredentials, hopen, hread, jsonUnmarshal, hparse, decodeValue]

/-- A document whose `private_key` is a number is refused, and the record
returned with the error is empty. -/
theorem readCredentials_errors_witness :
    (readCredentials (World.holding (.object numericKeyMembers)) "c.json").err ≠ none ∧
    (readCredentials (World.holding (.object numericKeyMembers)) "c.json").val
      = ⟨"", "", ""⟩ :=
  have h : (readCredentials (World.holding (.object numericKeyMembers)) "c.json").err
      ≠ none := by decide
  ⟨h, (readCredentials_errors (World.holding (.object numericKeyMembers)) "c.json").2.2.2.2 h⟩

/-- C4 as stated fails on the document `{}`: it is valid JSON that lacks all
three fields, and `readCredentials` returns no error and an empty record. -/
theorem readCredentials_empty_object_counterexample :
    (readCredentials (World.holding (.object [])) "c.json").err = none ∧
    (readCredentials (World.holding (.object [])) "c.json").val = ⟨"", "", ""⟩ := by
  decide

end SignedURL
